import Mathlib

/-!
geeRPC: client multiplexer and server dispatcher.

A shallow embedding of `call.go`, `client.go`, `server.go` and `codec/codec.go`.

* Pointers to `Call` values are indices into the `calls` memory of the client state,
  channels are indices into `chans`, which records for every channel the values sent on it.
  The callers, who receive from the channels, are not part of the client: `taken` counts the
  values they have received from each channel. A send goes through when the buffer of the
  channel has a free slot, and blocks otherwise.
* The codec is an interface of the program: what its reads and writes return is an input of
  the functions below, and the operations performed on it are recorded in a log.
* A `sync.Mutex` is a `Bool` (held or not). A function returns `none` when it does not return
  to its caller: it blocks on the `Lock` of a held mutex or on a send on a channel without a
  free slot, or the runtime stops the program.
* Values of type `uint64` are natural numbers reduced modulo `2 ^ 64`.
* Logging is left out.
-/

namespace geerpc

/-! ## Data model -/

/-- Number of values of a Go `uint64`. -/
def uint64Size : Nat := 18446744073709551616

/-- Payloads of type `interface{}` (arguments, replies), by their content. -/
abbrev Value := String

/-- The struct `codec.Header`. -/
structure Header where
  ServiceMethod : String
  Seq : Nat
  Error : String
deriving DecidableEq, Repr

/-- Go `error` values that the program builds: `errors.New(text)` (also an error returned by the
codec, known by its text) and `fmt.Errorf(format)` called without operands. -/
inductive GoError where
  | new (text : String)
  | errorf (format : String)
deriving DecidableEq, Repr

/-- The variable `ErrShutdown = errors.New("connection is shut down")`. -/
def ErrShutdown : GoError := GoError.new "connection is shut down"

/-- A channel value `chan *Call`: its identity and its capacity. -/
structure Chan where
  id : Nat
  cap : Nat
deriving DecidableEq, Repr

/-- The struct `Call`. -/
structure Call where
  Seq : Nat
  ServiceMethod : String
  Args : Value
  Reply : Value
  Error : Option GoError
  Done : Chan
deriving DecidableEq, Repr

/-- The struct `Option` of server.go. -/
structure Opt where
  MagicNumber : Int
  CodecType : String
deriving DecidableEq, Repr

/-- The constant `MagicNumber`. -/
def MagicNumber : Int := 0x3bef5c

/-- The constant `codec.GobType`. -/
def GobType : String := "application/gob"

/-- The constant `codec.JsonType`. -/
def JsonType : String := "application/json"

/-- The variable `DefaultOption`. -/
def DefaultOption : Opt := { MagicNumber := MagicNumber, CodecType := "application/gob" }

/-- Tags that `init` of codec.go enters into `NewCodecFuncMap`. -/
def NewCodecFuncMap : List String := [GobType]

/-- Operations performed on a `codec.Codec`; the target of `ReadBody` is `none` for `nil` and
`some call` for `call.Reply`. -/
inductive CodecOp where
  | ReadHeader
  | ReadBody (target : Option Nat)
  | Write (h : Header) (body : Value)
  | Close
deriving DecidableEq, Repr

/-- What `ReadBody` does with the body of a frame: it decodes a value, or returns an error. -/
inductive BodyRead where
  | ok (v : Value)
  | fail (err : String)
deriving DecidableEq, Repr

/-- The error `ReadBody` returns (`none` for `nil`). -/
def BodyRead.err : BodyRead → Option String
  | BodyRead.ok _ => none
  | BodyRead.fail e => some e

/-- One inbound frame: the header `ReadHeader` yields and the outcome of reading its body. -/
structure Frame where
  header : Header
  body : BodyRead
deriving DecidableEq, Repr

/-- The struct `Client`, together with the memory its pointers refer to (`calls`, `chans`). -/
structure Client where
  cc : List CodecOp
  opt : Opt
  sending : Bool
  header : Header
  mu : Bool
  seq : Nat
  pending : List (Nat × Nat)
  closing : Bool
  shutdown : Bool
  calls : Nat → Call
  nextCall : Nat
  chans : Nat → List Nat
  taken : Nat → Nat
  nextChan : Nat

/-! ## Mutexes and maps -/

/-- The method `sync.Mutex.Lock`: it blocks for ever on a held mutex. -/
def Lock (held : Bool) : Option Bool := if held then none else some true

/-- The method `sync.Mutex.Unlock`: a fatal error on a mutex that is not held. -/
def Unlock (held : Bool) : Option Bool := if held then some false else none

/-- Map read `pending[seq]`: `none` is the nil pointer of an absent key. -/
def pendingGet : List (Nat × Nat) → Nat → Option Nat
  | [], _ => none
  | (k, r) :: m, seq => if k = seq then some r else pendingGet m seq

/-- Builtin `delete(pending, seq)`. -/
def pendingDelete (m : List (Nat × Nat)) (seq : Nat) : List (Nat × Nat) :=
  m.filter (fun e => decide (e.1 ≠ seq))

/-- Map write `pending[seq] = call`: an entry with that key is replaced. -/
def pendingSet (m : List (Nat × Nat)) (seq : Nat) (call : Nat) : List (Nat × Nat) :=
  (seq, call) :: pendingDelete m seq

/-! ## call.go -/

/-- The assignment `call.Error = err`. -/
def Client.setError (client : Client) (call : Nat) (err : GoError) : Client :=
  let c : Call := { client.calls call with Error := some err }
  { client with calls := Function.update client.calls call c }

/-- How many values are in the buffer of the channel `d`: those sent and not yet received. -/
def Client.buffered (client : Client) (d : Nat) : Nat :=
  (client.chans d).length - client.taken d

/-- What a send `call.Done <- call` that goes through does to the channel. -/
def Client.push (client : Client) (call : Nat) : Client :=
  let d := (client.calls call).Done.id
  { client with chans := Function.update client.chans d (client.chans d ++ [call]) }

/-- The method `Call.done`: the send `call.Done <- call`, which blocks unless the buffer of the
channel has a free slot (a channel of capacity 0 has none: its send waits for a receiver). -/
def Client.done (client : Client) (call : Nat) : Option Client :=
  if client.buffered (client.calls call).Done.id < (client.calls call).Done.cap then
    some (client.push call)
  else
    none

/-- How many times `call` has been sent on its `Done` channel. -/
def Client.pushes (client : Client) (call : Nat) : Nat :=
  (client.chans (client.calls call).Done.id).count call

/-! ## client.go -/

/-- The method `Client.Close`; `closeErr` is what `cc.Close()` returns. -/
def Client.Close (client : Client) (closeErr : Option String) :
    Option (Option GoError × Client) := do
  let mu ← Lock client.mu
  let client := { client with mu := mu }
  if client.closing then
    let mu ← Unlock client.mu
    pure (some ErrShutdown, { client with mu := mu })
  else
    let client := { client with closing := true }
    let client := { client with cc := client.cc ++ [CodecOp.Close] }
    let mu ← Unlock client.mu
    pure (closeErr.map GoError.new, { client with mu := mu })

/-- The method `Client.IsAvailable`: the deferred call is `client.mu.Lock()`. -/
def Client.IsAvailable (client : Client) : Option (Bool × Client) := do
  let mu ← Lock client.mu
  let client := { client with mu := mu }
  let ret := !client.shutdown && !client.closing
  let mu ← Lock client.mu
  pure (ret, { client with mu := mu })

/-- The method `Client.registerCall`. -/
def Client.registerCall (client : Client) (call : Nat) :
    Option ((Nat × Option GoError) × Client) := do
  let mu ← Lock client.mu
  let client := { client with mu := mu }
  if client.closing || client.shutdown then
    let mu ← Unlock client.mu
    pure ((0, some ErrShutdown), { client with mu := mu })
  else
    let c : Call := { client.calls call with Seq := client.seq }
    let client := { client with calls := Function.update client.calls call c }
    let client := { client with
      pending := pendingSet client.pending (client.calls call).Seq call }
    let client := { client with seq := (client.seq + 1) % uint64Size }
    let mu ← Unlock client.mu
    pure (((client.calls call).Seq, none), { client with mu := mu })

/-- The method `Client.removeCall`. -/
def Client.removeCall (clint : Client) (seq : Nat) : Option (Option Nat × Client) := do
  let mu ← Lock clint.mu
  let clint := { clint with mu := mu }
  let call := pendingGet clint.pending seq
  let clint := { clint with pending := pendingDelete clint.pending seq }
  let mu ← Unlock clint.mu
  pure (call, { clint with mu := mu })

/-- The loop `for _, call := range client.pending` of `terminateCall`, over the entries in the
order the iteration visits them. -/
def Client.terminateLoop (err : GoError) : List (Nat × Nat) → Client → Option Client
  | [], client => some client
  | (_, call) :: rest, client => do
    let client := client.setError call err
    let client ← client.done call
    Client.terminateLoop err rest client

/-- The state after the loop of `terminateCall` when none of its sends blocks. -/
def Client.sweep (err : GoError) : List (Nat × Nat) → Client → Client
  | [], client => client
  | (_, call) :: rest, client =>
    Client.sweep err rest ((client.setError call err).push call)

/-- The `Done` channels of the calls `l` have free slots for all of them: for each call of `l`,
the values in the buffer of its channel and the calls of `l` that use this channel fit together
in the capacity of the channel. -/
def Client.roomFor (client : Client) (l : List Nat) : Prop :=
  ∀ r ∈ l, client.buffered (client.calls r).Done.id +
      l.countP (fun x => decide ((client.calls x).Done.id = (client.calls r).Done.id)) ≤
    (client.calls r).Done.cap

/-- The method `Client.terminateCall`. -/
def Client.terminateCall (client : Client) (err : GoError) : Option Client := do
  let sending ← Lock client.sending
  let client := { client with sending := sending }
  let mu ← Lock client.mu
  let client := { client with mu := mu }
  let client := { client with shutdown := true }
  let client ← Client.terminateLoop err client.pending client
  let mu ← Unlock client.mu
  let client := { client with mu := mu }
  let sending ← Unlock client.sending
  pure { client with sending := sending }

/-- One iteration of the loop of `Client.receive` in which `ReadHeader` succeeds, reading the
frame `f`; the first component is the value of `err` at the end of the iteration. -/
def Client.receiveIter (client : Client) (f : Frame) : Option (Option String × Client) := do
  let client := { client with cc := client.cc ++ [CodecOp.ReadHeader] }
  let (call, client) ← client.removeCall f.header.Seq
  match call with
  | none =>
    let client := { client with cc := client.cc ++ [CodecOp.ReadBody none] }
    pure (f.body.err, client)
  | some call =>
    if f.header.Error ≠ "" then
      let client := client.setError call (GoError.errorf f.header.Error)
      let client := { client with cc := client.cc ++ [CodecOp.ReadBody none] }
      pure (f.body.err, client)
    else
      let client := { client with cc := client.cc ++ [CodecOp.ReadBody (some call)] }
      match f.body with
      | BodyRead.ok v =>
        let c : Call := { client.calls call with Reply := v }
        let client := { client with calls := Function.update client.calls call c }
        let client ← client.done call
        pure (none, client)
      | BodyRead.fail e =>
        let client := client.setError call (GoError.new ("reading body" ++ e))
        let client ← client.done call
        pure (some e, client)

/-- The method `Client.receive` on a connection that delivers `frames` and whose next
`ReadHeader` then fails with `eof`. -/
def Client.receive (client : Client) : List Frame → String → Option Client
  | [], eof =>
    Client.terminateCall { client with cc := client.cc ++ [CodecOp.ReadHeader] }
      (GoError.new eof)
  | f :: rest, eof => do
    let (err, client) ← client.receiveIter f
    match err with
    | none => Client.receive client rest eof
    | some e => client.terminateCall (GoError.new e)

/-- The function `newClientCodec`; the receive loop it starts is `Client.receive`. -/
def newClientCodec (opt : Opt) : Client :=
  { cc := [], opt := opt, sending := false, header := { ServiceMethod := "", Seq := 0, Error := "" },
    mu := false, seq := 1, pending := [], closing := false, shutdown := false,
    calls := fun _ => { Seq := 0, ServiceMethod := "", Args := "", Reply := "", Error := none,
                        Done := { id := 0, cap := 0 } },
    nextCall := 0, chans := fun _ => [], taken := fun _ => 0, nextChan := 0 }

/-- The method `Client.send`; `werr` is what `cc.Write` returns if it is called. -/
def Client.send (client : Client) (call : Nat) (werr : Option String) : Option Client := do
  let sending ← Lock client.sending
  let client := { client with sending := sending }
  let ((seq, err), client) ← client.registerCall call
  match err with
  | some err =>
    let client := client.setError call err
    let client ← client.done call
    let sending ← Unlock client.sending
    pure { client with sending := sending }
  | none =>
    let client := { client with header := { client.header with
      ServiceMethod := (client.calls call).ServiceMethod } }
    let client := { client with header := { client.header with Seq := seq } }
    let client := { client with header := { client.header with Error := "" } }
    let client := { client with
      cc := client.cc ++ [CodecOp.Write client.header (client.calls call).Args] }
    match werr with
    | none =>
      let sending ← Unlock client.sending
      pure { client with sending := sending }
    | some e =>
      let (call, client) ← client.removeCall seq
      match call with
      | some call =>
        let client := client.setError call (GoError.new e)
        let client ← client.done call
        let sending ← Unlock client.sending
        pure { client with sending := sending }
      | none =>
        let sending ← Unlock client.sending
        pure { client with sending := sending }

/-- The composite literal `&Call{...}`: the new value is stored at the next free address. -/
def Client.newCall (client : Client) (c : Call) : Nat × Client :=
  (client.nextCall, { client with calls := Function.update client.calls client.nextCall c,
                                  nextCall := client.nextCall + 1 })

/-- The method `Client.asyncGo`; `done` is `none` for a nil channel, and a channel made here
gets the next free identity. A panic is a call that does not return. -/
def Client.asyncGo (client : Client) (serviceMethod : String) (args reply : Value)
    (done : Option Chan) (werr : Option String) : Option (Nat × Client) := do
  let (done, client) ← match done with
    | none => some (({ id := client.nextChan, cap := 10 } : Chan),
        { client with nextChan := client.nextChan + 1 })
    | some d => if d.cap = 0 then none else some (d, client)
  let (call, client) := client.newCall
    { Seq := 0, ServiceMethod := serviceMethod, Args := args, Reply := reply, Error := none,
      Done := done }
  let client ← client.send call werr
  pure (call, client)

/-! ## A client and its receive loop, step by step -/

/-- Where the goroutine running `Client.receive` stands: in the loop, out of the loop with the
error that ended it and before `terminateCall`, or returned. -/
inductive RecvState where
  | running
  | exited (err : String)
  | finished
deriving DecidableEq, Repr

/-- A client, its receive loop, and the calls that were passed to `send`. -/
structure Run where
  client : Client
  recv : RecvState
  sent : List Nat

/-- Steps of a run: a caller issues a call (`asyncGo`, hence `send`, with the result of the
codec write), the receive loop reads a frame, its `ReadHeader` fails, or it calls
`terminateCall` after the loop. -/
inductive Step where
  | go (serviceMethod : String) (args reply : Value) (done : Option Chan) (werr : Option String)
  | frame (f : Frame)
  | headerFail (err : String)
  | terminate
deriving DecidableEq, Repr

/-- The run that `newClientCodec` starts. -/
def Run.start (opt : Opt) : Run :=
  { client := newClientCodec opt, recv := RecvState.running, sent := [] }

/-- One step of a run; `none` when the step cannot be taken or does not return. -/
def Run.step (s : Run) : Step → Option Run
  | Step.go m a r d w => do
    let (call, c) ← s.client.asyncGo m a r d w
    pure { s with client := c, sent := s.sent ++ [call] }
  | Step.frame f =>
    match s.recv with
    | RecvState.running => do
      let (err, c) ← s.client.receiveIter f
      match err with
      | none => pure { s with client := c }
      | some e => pure { s with client := c, recv := RecvState.exited e }
    | _ => none
  | Step.headerFail e =>
    match s.recv with
    | RecvState.running =>
      some { s with client := { s.client with cc := s.client.cc ++ [CodecOp.ReadHeader] },
                    recv := RecvState.exited e }
    | _ => none
  | Step.terminate =>
    match s.recv with
    | RecvState.exited e => do
      let c ← s.client.terminateCall (GoError.new e)
      pure { s with client := c, recv := RecvState.finished }
    | _ => none

/-- A sequence of steps. -/
def Run.steps : Run → List Step → Option Run
  | s, [] => some s
  | s, st :: rest => do
    let s ← s.step st
    Run.steps s rest

/-- Client states reached from `newClientCodec` by `registerCall` (on a newly created call, as
`asyncGo` passes to `send`), `removeCall` and `terminateCall`; the index counts the
registrations that succeeded. -/
inductive Reach : Nat → Client → Prop where
  | init (opt : Opt) : Reach 0 (newClientCodec opt)
  | registered {n : Nat} {c : Client} (call : Call) (seq : Nat) (c2 : Client) :
      Reach n c →
      (c.newCall call).2.registerCall (c.newCall call).1 = some ((seq, none), c2) →
      Reach (n + 1) c2
  | refused {n : Nat} {c : Client} (call : Call) (seq : Nat) (err : GoError) (c2 : Client) :
      Reach n c →
      (c.newCall call).2.registerCall (c.newCall call).1 = some ((seq, some err), c2) →
      Reach n c2
  | removed {n : Nat} {c : Client} (seq : Nat) (call : Option Nat) (c2 : Client) :
      Reach n c → c.removeCall seq = some (call, c2) → Reach n c2
  | terminated {n : Nat} {c : Client} (err : GoError) (c2 : Client) :
      Reach n c → c.terminateCall err = some c2 → Reach n c2

/-! ## server.go -/

/-- The struct `request`. -/
structure request where
  header : Header
  argv : Value
  replayv : Value
deriving DecidableEq, Repr

/-- Bodies the server passes to `cc.Write`: the variable `invalidRequest`, or a reply value. -/
inductive Body where
  | invalidRequest
  | value (v : Value)
deriving DecidableEq, Repr

/-- What a connection handler does, in order: `f(conn)`, the codec operations, the statement
`go server.handleRequest(cc, req, sending, wg)`, `wg.Wait()`, `cc.Close()`, `conn.Close()`. -/
inductive ServerEvent where
  | NewCodec (codecType : String)
  | ReadHeader
  | ReadBody
  | Write (h : Header) (body : Body)
  | Go (req : Option request)
  | Wait
  | CodecClose
  | ConnClose
deriving DecidableEq, Repr

/-- The method `Server.readRequestHeader`; `hread` is what `cc.ReadHeader` yields. The result
is `(nil, err)` or `(&header, nil)`. -/
def readRequestHeader (hread : Except String Header) :
    Except String Header × List ServerEvent :=
  match hread with
  | Except.error e => (Except.error e, [ServerEvent.ReadHeader])
  | Except.ok header => (Except.ok header, [ServerEvent.ReadHeader])

/-- The method `Server.readRequest`; `body` is the outcome of `cc.ReadBody` if it is called.
The string variable that `argv` points to starts empty. -/
def readRequest (hread : Except String Header) (body : BodyRead) :
    (Option request × Option String) × List ServerEvent :=
  match readRequestHeader hread with
  | (Except.error err, ev) => ((none, some err), ev)
  | (Except.ok header, ev) =>
    let req : request := { header := header, argv := "", replayv := "" }
    match body with
    | BodyRead.fail _ => ((some req, none), ev ++ [ServerEvent.ReadBody])
    | BodyRead.ok v => ((some { req with argv := v }, none), ev ++ [ServerEvent.ReadBody])

/-- The method `Server.sendResponse`; the mutex `sending` is made by `serverCodec`, and no
caller holds it. -/
def sendResponse (header : Header) (body : Body) : List ServerEvent :=
  [ServerEvent.Write header body]

/-- The method `Server.handleRequest`, run by a worker goroutine. -/
def handleRequest (req : request) : List ServerEvent :=
  let req := { req with replayv := "geeRPC resp " ++ toString req.header.Seq }
  sendResponse req.header (Body.value req.replayv)

/-- What `serverCodec` does with the result of one `readRequest`, and whether the loop goes
on. -/
def serverCodecIter : Option request × Option String → List ServerEvent × Bool
  | (none, some _) => ([], false)
  | (some req, some err) =>
    (sendResponse { req.header with Error := err } Body.invalidRequest, true)
  | (req, none) => ([ServerEvent.Go req], true)

/-- The method `Server.serverCodec` on a connection that delivers `frames` and whose next
`ReadHeader` then fails with `eof`. -/
def serverCodec : List Frame → String → List ServerEvent
  | [], eof =>
    let (r, ev) := readRequest (Except.error eof) (BodyRead.fail eof)
    ev ++ (serverCodecIter r).1 ++ [ServerEvent.Wait, ServerEvent.CodecClose]
  | f :: rest, eof =>
    let (r, ev) := readRequest (Except.ok f.header) f.body
    let (ev2, goOn) := serverCodecIter r
    if goOn then ev ++ ev2 ++ serverCodec rest eof
    else ev ++ ev2 ++ [ServerEvent.Wait, ServerEvent.CodecClose]

/-- The method `Server.ServeConn`; `optRead` is what decoding the `Option` from the connection
yields. -/
def ServeConn (optRead : Except String Opt) (frames : List Frame) (eof : String) :
    List ServerEvent :=
  match optRead with
  | Except.error _ => [ServerEvent.ConnClose]
  | Except.ok opt =>
    if opt.CodecType ∈ NewCodecFuncMap then
      [ServerEvent.NewCodec opt.CodecType] ++ serverCodec frames eof ++ [ServerEvent.ConnClose]
    else
      [ServerEvent.ConnClose]

/-! ## States used in the examples, and the invariant of the sequence counter -/

/-- A new client on which `Close` was called. -/
def closedClient : Client :=
  (((newClientCodec DefaultOption).Close none).map Prod.snd).getD (newClientCodec DefaultOption)

/-- A client with two calls pending under the sequence numbers 1 and 2. -/
def twoPending : Client :=
  (((Run.start DefaultOption).steps
      [Step.go "Foo.Sum" "a1" "" none none, Step.go "Foo.Sum" "a2" "" none none]).map
    Run.client).getD (newClientCodec DefaultOption)

/-- A client with two pending calls that were issued with the same `Done` channel, of
capacity 1. -/
def sharedPending : Client :=
  (((Run.start DefaultOption).steps
      [Step.go "Foo.Sum" "a1" "" (some ⟨0, 1⟩) none,
       Step.go "Foo.Sum" "a2" "" (some ⟨0, 1⟩) none]).map
    Run.client).getD (newClientCodec DefaultOption)

/-- What holds of a client after `n` successful registrations. -/
structure SeqInv (n : Nat) (c : Client) : Prop where
  mu_free : c.mu = false
  sending_free : c.sending = false
  seq_eq : c.seq = (n + 1) % uint64Size
  keys_range : n < uint64Size → ∀ k r, (k, r) ∈ c.pending → 1 ≤ k ∧ k ≤ n
  seq_key : ∀ k r, (k, r) ∈ c.pending → (c.calls r).Seq = k ∧ r < c.nextCall
  keys_nodup : (c.pending.map Prod.fst).Nodup

/-- The call that the examples register. -/
def firstCall : Call :=
  { Seq := 0, ServiceMethod := "Foo.Sum", Args := "args", Reply := "", Error := none,
    Done := ⟨0, 10⟩ }

/-- The closed client after a caller created `firstCall`. -/
def closedWithCall : Client := (closedClient.newCall firstCall).2

/-- The closed client after a call was issued with a `Done` channel of capacity 1, which now
holds this call. -/
def closedFullChannel : Client :=
  ((closedClient.asyncGo "Foo.Sum" "a1" "" (some ⟨0, 1⟩) none).map Prod.snd).getD closedClient

/-- The client after `firstCall` was registered. -/
def oneRegistered : Client :=
  ((((newClientCodec DefaultOption).newCall firstCall).2.registerCall 0).map Prod.snd).getD
    (newClientCodec DefaultOption)

/-! ## Basic facts -/

theorem removeCall_eq (c : Client) (seq : Nat) (hmu : c.mu = false) :
    c.removeCall seq = some (pendingGet c.pending seq,
      { c with pending := pendingDelete c.pending seq }) := by
  cases c
  simp only at hmu
  subst hmu
  rfl

theorem registerCall_shut (c : Client) (call : Nat) (hmu : c.mu = false)
    (h : c.closing = true ∨ c.shutdown = true) :
    c.registerCall call = some ((0, some ErrShutdown), c) := by
  cases c
  simp only at hmu h
  subst hmu
  rcases h with h | h <;> subst h <;> simp [Client.registerCall, Lock, Unlock]

theorem registerCall_ok (c : Client) (call : Nat) (hmu : c.mu = false)
    (hc : c.closing = false) (hs : c.shutdown = false) :
    c.registerCall call = some ((c.seq, none),
      { c with calls := Function.update c.calls call { c.calls call with Seq := c.seq },
               pending := pendingSet c.pending c.seq call,
               seq := (c.seq + 1) % uint64Size }) := by
  cases c
  simp only at hmu hc hs
  subst hmu hc hs
  simp [Client.registerCall, Lock, Unlock]

theorem done_of_room (c : Client) (call : Nat)
    (h : c.buffered (c.calls call).Done.id < (c.calls call).Done.cap) :
    c.done call = some (c.push call) := by
  simp [Client.done, h]

theorem done_of_full (c : Client) (call : Nat)
    (h : ¬ c.buffered (c.calls call).Done.id < (c.calls call).Done.cap) :
    c.done call = none := by
  simp [Client.done, h]

theorem done_some {c c2 : Client} {call : Nat} (h : c.done call = some c2) :
    c2 = c.push call ∧ c.buffered (c.calls call).Done.id < (c.calls call).Done.cap := by
  by_cases hr : c.buffered (c.calls call).Done.id < (c.calls call).Done.cap
  · rw [done_of_room c call hr] at h
    exact ⟨(Option.some.inj h).symm, hr⟩
  · rw [done_of_full c call hr] at h
    exact absurd h (by simp)

theorem sweep_frame (err : GoError) (l : List (Nat × Nat)) (c : Client) :
    (Client.sweep err l c).cc = c.cc ∧
    (Client.sweep err l c).opt = c.opt ∧
    (Client.sweep err l c).sending = c.sending ∧
    (Client.sweep err l c).header = c.header ∧
    (Client.sweep err l c).mu = c.mu ∧
    (Client.sweep err l c).seq = c.seq ∧
    (Client.sweep err l c).pending = c.pending ∧
    (Client.sweep err l c).closing = c.closing ∧
    (Client.sweep err l c).shutdown = c.shutdown ∧
    (Client.sweep err l c).nextCall = c.nextCall ∧
    (Client.sweep err l c).nextChan = c.nextChan ∧
    (Client.sweep err l c).taken = c.taken := by
  induction l generalizing c with
  | nil => simp [Client.sweep]
  | cons e rest ih =>
    obtain ⟨k, r⟩ := e
    simp only [Client.sweep]
    have h := ih ((c.setError r err).push r)
    simpa [Client.setError, Client.push] using h

theorem sweep_calls (err : GoError) (l : List (Nat × Nat)) (c : Client) (r : Nat) :
    (Client.sweep err l c).calls r =
      if r ∈ l.map Prod.snd then { c.calls r with Error := some err } else c.calls r := by
  induction l generalizing c with
  | nil => simp [Client.sweep]
  | cons e rest ih =>
    obtain ⟨k, r0⟩ := e
    simp only [Client.sweep, ih]
    by_cases h0 : r = r0
    · subst h0
      simp [Client.setError, Client.push]
    · by_cases h1 : r ∈ rest.map Prod.snd
      · simp [Client.setError, Client.push, h0, h1, Function.update_noteq]
      · simp [Client.setError, Client.push, h0, h1, Function.update_noteq]

theorem sweep_chans (err : GoError) (l : List (Nat × Nat)) (c : Client) (d : Nat) :
    (Client.sweep err l c).chans d =
      c.chans d ++ (l.map Prod.snd).filter (fun r => decide ((c.calls r).Done.id = d)) := by
  induction l generalizing c with
  | nil => simp [Client.sweep]
  | cons e rest ih =>
    obtain ⟨k, r0⟩ := e
    simp only [Client.sweep, ih]
    have hD : ∀ r, (((c.setError r0 err).push r0).calls r).Done = (c.calls r).Done := by
      intro r
      by_cases h0 : r = r0
      · subst h0; simp [Client.setError, Client.push]
      · simp [Client.setError, Client.push, h0, Function.update_noteq]
    simp only [hD, List.map_cons, List.filter_cons]
    by_cases hd : (c.calls r0).Done.id = d
    · subst hd
      simp [Client.setError, Client.push]
    · have hd2 : ¬ d = (c.calls r0).Done.id := fun h => hd h.symm
      simp [Client.setError, Client.push, hd, hd2, Function.update_noteq]

theorem sweep_pushes (err : GoError) (l : List (Nat × Nat)) (c : Client) (r : Nat) :
    (Client.sweep err l c).pushes r = c.pushes r + (l.map Prod.snd).count r := by
  have hD : ((Client.sweep err l c).calls r).Done = (c.calls r).Done := by
    rw [sweep_calls]
    split <;> rfl
  simp only [Client.pushes, hD, sweep_chans, List.count_append]
  congr 1
  apply List.count_filter
  simp

theorem sweep_locks (err : GoError) (l : List (Nat × Nat)) (c : Client) (a b : Bool) :
    Client.sweep err l { c with sending := a, mu := b } =
      { Client.sweep err l c with sending := a, mu := b } := by
  induction l generalizing c with
  | nil => rfl
  | cons e rest ih =>
    obtain ⟨k, r⟩ := e
    simp only [Client.sweep]
    exact ih ((c.setError r err).push r)

theorem terminateLoop_some (err : GoError) (l : List (Nat × Nat)) (c c2 : Client)
    (h : Client.terminateLoop err l c = some c2) : c2 = Client.sweep err l c := by
  induction l generalizing c with
  | nil =>
    simp only [Client.terminateLoop, Option.some.injEq] at h
    exact h.symm
  | cons e rest ih =>
    obtain ⟨k, r⟩ := e
    simp only [Client.terminateLoop, Option.bind_eq_bind, Option.bind_eq_some] at h
    obtain ⟨c1, h1, h2⟩ := h
    rw [(done_some h1).1] at h2
    exact ih _ h2

theorem terminateLoop_locks (err : GoError) (l : List (Nat × Nat)) (c : Client) (a b : Bool) :
    Client.terminateLoop err l { c with sending := a, mu := b } =
      (Client.terminateLoop err l c).map (fun T => { T with sending := a, mu := b }) := by
  induction l generalizing c with
  | nil => rfl
  | cons e rest ih =>
    obtain ⟨k, r⟩ := e
    simp only [Client.terminateLoop, Option.bind_eq_bind]
    by_cases hr : (c.setError r err).buffered ((c.setError r err).calls r).Done.id <
        ((c.setError r err).calls r).Done.cap
    · have h1 := done_of_room (c.setError r err) r hr
      have h2 := done_of_room (Client.setError { c with sending := a, mu := b } r err) r hr
      rw [h1, h2]
      exact ih ((c.setError r err).push r)
    · have h1 := done_of_full (c.setError r err) r hr
      have h2 := done_of_full (Client.setError { c with sending := a, mu := b } r err) r hr
      rw [h1, h2]
      rfl

theorem terminateCall_eq (c : Client) (err : GoError) (hmu : c.mu = false)
    (hs : c.sending = false) :
    c.terminateCall err = Client.terminateLoop err c.pending { c with shutdown := true } := by
  have key := terminateLoop_locks err c.pending { c with shutdown := true } true true
  cases hT : Client.terminateLoop err c.pending { c with shutdown := true } with
  | none =>
    rw [hT] at key
    simp only at key
    simp only [Client.terminateCall, Lock, hmu, hs, Option.bind_eq_bind, Option.some_bind,
      Bool.false_eq_true, if_false, key, Option.map_none']
    rfl
  | some T =>
    rw [hT] at key
    have hT2 := terminateLoop_some _ _ _ _ hT
    have hm : T.mu = false := by
      rw [hT2, (sweep_frame _ _ _).2.2.2.2.1]; exact hmu
    have hs2 : T.sending = false := by
      rw [hT2, (sweep_frame _ _ _).2.2.1]; exact hs
    simp only at key
    simp only [Client.terminateCall, Lock, Unlock, hmu, hs, Option.bind_eq_bind,
      Option.some_bind, Bool.false_eq_true, if_false, key, if_true, Option.pure_def,
      Option.some.injEq, Option.map_some']
    cases T
    simp_all
theorem setError_Done (c : Client) (r0 : Nat) (err : GoError) (r : Nat) :
    ((c.setError r0 err).calls r).Done = (c.calls r).Done := by
  by_cases h0 : r = r0
  · subst h0; simp [Client.setError]
  · simp [Client.setError, h0, Function.update_noteq]

theorem buffered_push (c : Client) (r0 d : Nat) :
    (c.push r0).buffered d ≤ c.buffered d + (if (c.calls r0).Done.id = d then 1 else 0) := by
  by_cases hd : (c.calls r0).Done.id = d
  · subst hd
    simp only [Client.buffered, Client.push, Function.update_same, List.length_append,
      List.length_singleton, if_true]
    omega
  · have hd2 : d ≠ (c.calls r0).Done.id := fun h => hd h.symm
    simp [Client.buffered, Client.push, hd, Function.update_noteq hd2]

theorem roomFor_head {c : Client} {r0 : Nat} {l : List Nat} (h : c.roomFor (r0 :: l)) :
    c.buffered (c.calls r0).Done.id < (c.calls r0).Done.cap := by
  have := h r0 (List.mem_cons_self _ _)
  simp only [List.countP_cons, decide_True, if_true] at this
  omega

theorem roomFor_step {c : Client} {r0 : Nat} {l : List Nat} (err : GoError)
    (h : c.roomFor (r0 :: l)) : ((c.setError r0 err).push r0).roomFor l := by
  intro r hr
  have h1 := h r (List.mem_cons_of_mem _ hr)
  have hb := buffered_push (c.setError r0 err) r0 ((c.calls r).Done.id)
  have hD : ∀ x, (((c.setError r0 err).push r0).calls x).Done = (c.calls x).Done :=
    fun x => setError_Done c r0 err x
  have hb2 : (c.setError r0 err).buffered (c.calls r).Done.id = c.buffered (c.calls r).Done.id :=
    rfl
  rw [setError_Done, hb2] at hb
  simp only [hD]
  simp only [List.countP_cons] at h1
  by_cases hd : (c.calls r0).Done.id = (c.calls r).Done.id
  · simp only [hd, decide_True, if_true] at h1 hb
    omega
  · simp only [hd, decide_False, if_false] at h1 hb
    simp only [Bool.false_eq_true, if_false] at h1
    omega

theorem terminateLoop_of_room (err : GoError) (l : List (Nat × Nat)) (c : Client)
    (h : c.roomFor (l.map Prod.snd)) :
    Client.terminateLoop err l c = some (Client.sweep err l c) := by
  induction l generalizing c with
  | nil => rfl
  | cons e rest ih =>
    obtain ⟨k, r0⟩ := e
    simp only [List.map_cons] at h
    have hroom := roomFor_head h
    have hd : (c.setError r0 err).done r0 = some ((c.setError r0 err).push r0) := by
      apply done_of_room
      rw [setError_Done]
      exact hroom
    simp only [Client.terminateLoop, Option.bind_eq_bind, hd, Option.some_bind, Client.sweep]
    exact ih _ (roomFor_step err h)

theorem terminateCall_of_room (c : Client) (err : GoError) (hmu : c.mu = false)
    (hs : c.sending = false) (hroom : c.roomFor (c.pending.map Prod.snd)) :
    c.terminateCall err = some (Client.sweep err c.pending { c with shutdown := true }) := by
  rw [terminateCall_eq c err hmu hs]
  exact terminateLoop_of_room err c.pending _ hroom

theorem terminateCall_some (c c2 : Client) (err : GoError) (hmu : c.mu = false)
    (hs : c.sending = false) (h : c.terminateCall err = some c2) :
    c2 = Client.sweep err c.pending { c with shutdown := true } := by
  rw [terminateCall_eq c err hmu hs] at h
  exact terminateLoop_some _ _ _ _ h
theorem send_shut_eq (c : Client) (call : Nat) (werr : Option String)
    (hs : c.sending = false) (hmu : c.mu = false)
    (h : c.closing = true ∨ c.shutdown = true)
    (hroom : c.buffered (c.calls call).Done.id < (c.calls call).Done.cap) :
    c.send call werr = some ((c.setError call ErrShutdown).push call) := by
  have hr := registerCall_shut { c with sending := true } call hmu h
  have hd := done_of_room (Client.setError { c with sending := true } call ErrShutdown) call
    (by rw [setError_Done]; exact hroom)
  cases c
  simp only at hs hmu h hr hd
  subst hs hmu
  simp only [Client.send, Lock, Bool.false_eq_true, if_false, Option.bind_eq_bind,
    Option.some_bind, hr, hd]
  rfl

theorem send_shut_full (c : Client) (call : Nat) (werr : Option String)
    (hs : c.sending = false) (hmu : c.mu = false)
    (h : c.closing = true ∨ c.shutdown = true)
    (hfull : ¬ c.buffered (c.calls call).Done.id < (c.calls call).Done.cap) :
    c.send call werr = none := by
  have hr := registerCall_shut { c with sending := true } call hmu h
  have hd := done_of_full (Client.setError { c with sending := true } call ErrShutdown) call
    (by rw [setError_Done]; exact hfull)
  cases c
  simp only at hs hmu h hr hd
  subst hs hmu
  simp only [Client.send, Lock, Bool.false_eq_true, if_false, Option.bind_eq_bind,
    Option.some_bind, hr, hd]
  rfl

/-! ## Claims -/

/-- C7: `IsAvailable` never returns to its caller, whatever the state of the client: its
deferred call locks the state mutex, which the call itself holds, instead of unlocking it. -/
theorem IsAvailable_never_returns (c : Client) : c.IsAvailable = none := by
  cases h : c.mu <;> simp [Client.IsAvailable, Lock, h]

/-- C8, as stated, fails: on a closed client whose mutexes are free, a call is issued with a
`Done` channel of capacity 1 that already holds a completed call. `registerCall` refuses the
call, but `send` does not return: its send on the full channel blocks, and so does the
`asyncGo` that calls it. -/
theorem send_blocks_on_full_channel :
    closedFullChannel.closing = true ∧ closedFullChannel.sending = false ∧
    closedFullChannel.mu = false ∧ closedFullChannel.chans 0 = [0] ∧
    closedFullChannel.taken 0 = 0 ∧
    ((closedFullChannel.newCall ⟨0, "Foo.Sum", "a2", "", none, ⟨0, 1⟩⟩).2.registerCall 1).map
      Prod.fst = some (0, some ErrShutdown) ∧
    (closedFullChannel.newCall ⟨0, "Foo.Sum", "a2", "", none, ⟨0, 1⟩⟩).2.send 1 none = none ∧
    closedFullChannel.asyncGo "Foo.Sum" "a2" "" (some ⟨0, 1⟩) none = none := by
  refine ⟨rfl, rfl, rfl, rfl, rfl, rfl, rfl, rfl⟩

/-- C8, amended: on a client whose `closing` or `shutdown` flag is set (both mutexes free), for
a call whose `Done` channel has a free slot, `registerCall` returns `(0, ErrShutdown)` and
changes nothing, and `send` returns after it set `call.Error` to `ErrShutdown` and sent the
call once on its `Done` channel: no codec operation is performed, and the pending table, the
sequence counter, the flags, the mutexes, the other calls and the other channels are as
before. -/
theorem send_refused_when_closed (c : Client) (call : Nat) (werr : Option String)
    (hs : c.sending = false) (hmu : c.mu = false)
    (h : c.closing = true ∨ c.shutdown = true)
    (hroom : c.buffered (c.calls call).Done.id < (c.calls call).Done.cap) :
    c.registerCall call = some ((0, some ErrShutdown), c) ∧
    ∃ c2, c.send call werr = some c2 ∧
      c2.calls call = { c.calls call with Error := some ErrShutdown } ∧
      (∀ r, r ≠ call → c2.calls r = c.calls r) ∧
      c2.chans (c.calls call).Done.id = c.chans (c.calls call).Done.id ++ [call] ∧
      (∀ d, d ≠ (c.calls call).Done.id → c2.chans d = c.chans d) ∧
      c2.pushes call = c.pushes call + 1 ∧
      c2.cc = c.cc ∧ c2.pending = c.pending ∧ c2.seq = c.seq ∧
      c2.closing = c.closing ∧ c2.shutdown = c.shutdown ∧
      c2.sending = false ∧ c2.mu = false := by
  refine ⟨registerCall_shut c call hmu h, _, send_shut_eq c call werr hs hmu h hroom, ?_⟩
  refine ⟨by simp [Client.setError, Client.push], ?_, by simp [Client.setError, Client.push],
    ?_, ?_, rfl, rfl, rfl, rfl, rfl, hs, hmu⟩
  · intro r hr
    simp [Client.setError, Client.push, Function.update_noteq hr]
  · intro d hd
    simp [Client.setError, Client.push, Function.update_noteq hd]
  · simp [Client.setError, Client.push, Client.pushes]

/-- C8, amended, at a closed client, for a newly created call whose `Done` channel has
capacity 10 and is empty. -/
theorem send_refused_when_closed_witness :
    closedWithCall.sending = false ∧ closedWithCall.mu = false ∧
    closedWithCall.closing = true ∧ closedWithCall.cc = [CodecOp.Close] ∧
    closedWithCall.calls 0 = firstCall ∧ closedWithCall.buffered 0 = 0 ∧
    (closedWithCall.registerCall 0 = some ((0, some ErrShutdown), closedWithCall) ∧
    ∃ c2, closedWithCall.send 0 none = some c2 ∧
      c2.calls 0 = { closedWithCall.calls 0 with Error := some ErrShutdown } ∧
      (∀ r, r ≠ 0 → c2.calls r = closedWithCall.calls r) ∧
      c2.chans (closedWithCall.calls 0).Done.id =
        closedWithCall.chans (closedWithCall.calls 0).Done.id ++ [0] ∧
      (∀ d, d ≠ (closedWithCall.calls 0).Done.id → c2.chans d = closedWithCall.chans d) ∧
      c2.pushes 0 = closedWithCall.pushes 0 + 1 ∧
      c2.cc = closedWithCall.cc ∧ c2.pending = closedWithCall.pending ∧
      c2.seq = closedWithCall.seq ∧
      c2.closing = closedWithCall.closing ∧ c2.shutdown = closedWithCall.shutdown ∧
      c2.sending = false ∧ c2.mu = false) :=
  ⟨rfl, rfl, rfl, rfl, rfl, rfl,
    send_refused_when_closed closedWithCall 0 none rfl rfl (Or.inl rfl) (by decide)⟩
/-- C1: a call whose response header carries an error is never completed. The call is passed
to `send` (sequence number 1, write succeeds), the receive loop reads the header
`(Foo.Sum, 1, "method not found")`, the next `ReadHeader` fails and `terminateCall` runs: the
receive loop has ended, the call is out of the pending table with its `Error` set, and nothing
was ever sent on its `Done` channel. -/
theorem remote_error_call_never_completed :
    ((Run.start DefaultOption).steps
        [Step.go "Foo.Sum" "args" "" none none,
         Step.frame ⟨⟨"Foo.Sum", 1, "method not found"⟩, BodyRead.ok ""⟩,
         Step.headerFail "EOF",
         Step.terminate]).map
      (fun s => (s.recv, s.sent, s.client.pending, (s.client.calls 0).Seq,
        (s.client.calls 0).Error, (s.client.calls 0).Done, s.client.chans 0,
        s.client.pushes 0)) =
    some (RecvState.finished, [0], [], 1, some (GoError.errorf "method not found"),
      ⟨0, 10⟩, [], 0) := by
  rfl

/-- C3: seven calls are sent, and the receive loop reads the header
`(Foo.Sum, 7, "method not found")`. The seventh call leaves the pending table, its body is read
with a nil target, its `Reply` is untouched and its `Error` is `fmt.Errorf` of the header
text; but nothing is sent on its `Done` channel, and the receive loop goes on. -/
theorem remote_error_not_pushed :
    ((Run.start DefaultOption).steps
        (List.replicate 7 (Step.go "Foo.Sum" "args" "old reply" none none) ++
         [Step.frame ⟨⟨"Foo.Sum", 7, "method not found"⟩, BodyRead.ok "reply"⟩])).map
      (fun s => (pendingGet s.client.pending 7, s.client.calls 6, s.client.cc.drop 7,
        s.client.chans 6, s.client.pushes 6, s.recv)) =
    some (none,
      { Seq := 7, ServiceMethod := "Foo.Sum", Args := "args", Reply := "old reply",
        Error := some (GoError.errorf "method not found"), Done := ⟨6, 10⟩ },
      [CodecOp.ReadHeader, CodecOp.ReadBody none], [], 0, RecvState.running) := by
  rfl

/-- C5: `ServeConn` on a connection whose `Option` decodes to magic number 0 and the registered
tag `application/gob`: a codec is constructed and frame headers are read, a request is handed to
a worker, and the connection is closed only after the loop has ended. -/
theorem ServeConn_wrong_magic_number_served :
    (0 : Int) ≠ MagicNumber ∧
    ServeConn (Except.ok { MagicNumber := 0, CodecType := GobType })
        [⟨⟨"Foo.Sum", 1, ""⟩, BodyRead.ok "geeRPC req 1"⟩] "EOF" =
      [ServerEvent.NewCodec "application/gob", ServerEvent.ReadHeader, ServerEvent.ReadBody,
       ServerEvent.Go (some ⟨⟨"Foo.Sum", 1, ""⟩, "geeRPC req 1", ""⟩),
       ServerEvent.ReadHeader, ServerEvent.Wait, ServerEvent.CodecClose,
       ServerEvent.ConnClose] := by
  decide

/-- The method `ServeConn` never looks at the magic number. -/
theorem ServeConn_MagicNumber_unused (m : Int) (t : String) (frames : List Frame)
    (eof : String) :
    ServeConn (Except.ok { MagicNumber := m, CodecType := t }) frames eof =
      ServeConn (Except.ok { MagicNumber := MagicNumber, CodecType := t }) frames eof := rfl

/-- C6: `serverCodec` on a frame `(Foo.Sum, 3, "")` whose body fails to decode, followed by a
well-formed frame: `readRequest` returns the request with a nil error, so a worker is started
for it and the loop writes no response of its own; the worker writes a response with an empty
`Error` and the body `geeRPC resp 3`. The loop goes on with the next frame. -/
theorem serverCodec_body_failure_dispatched :
    readRequest (Except.ok ⟨"Foo.Sum", 3, ""⟩) (BodyRead.fail "bad body") =
      ((some ⟨⟨"Foo.Sum", 3, ""⟩, "", ""⟩, none),
        [ServerEvent.ReadHeader, ServerEvent.ReadBody]) ∧
    serverCodec [⟨⟨"Foo.Sum", 3, ""⟩, BodyRead.fail "bad body"⟩,
                 ⟨⟨"Foo.Sum", 4, ""⟩, BodyRead.ok "geeRPC req 4"⟩] "EOF" =
      [ServerEvent.ReadHeader, ServerEvent.ReadBody,
       ServerEvent.Go (some ⟨⟨"Foo.Sum", 3, ""⟩, "", ""⟩),
       ServerEvent.ReadHeader, ServerEvent.ReadBody,
       ServerEvent.Go (some ⟨⟨"Foo.Sum", 4, ""⟩, "geeRPC req 4", ""⟩),
       ServerEvent.ReadHeader, ServerEvent.Wait, ServerEvent.CodecClose] ∧
    handleRequest ⟨⟨"Foo.Sum", 3, ""⟩, "", ""⟩ =
      [ServerEvent.Write ⟨"Foo.Sum", 3, ""⟩ (Body.value "geeRPC resp 3")] := by
  decide

/-- The method `readRequest` never returns a request together with an error, so the branch of
`serverCodec` that writes an error response is never taken. -/
theorem readRequest_error_without_request (hread : Except String Header) (body : BodyRead) :
    (readRequest hread body).1.2 = none ∨ (readRequest hread body).1.1 = none := by
  cases hread <;> cases body <;> simp [readRequest, readRequestHeader]

/-- The loop of `serverCodec` writes nothing itself: its events are reads, worker starts and the final
wait and close. -/
theorem serverCodec_writes_nothing (frames : List Frame) (eof : String) (h : Header)
    (b : Body) : ServerEvent.Write h b ∉ serverCodec frames eof := by
  induction frames with
  | nil => simp [serverCodec, readRequest, readRequestHeader, serverCodecIter]
  | cons f rest ih =>
    cases hb : f.body <;>
      simp [serverCodec, readRequest, readRequestHeader, serverCodecIter, hb, ih]

/-- C2, as stated, fails. After one call was sent and `terminateCall` ran, the pending table
still holds the call. And with two pending calls that share a `Done` channel of capacity 1,
`terminateCall` does not return: the send for the second call blocks on the full channel. -/
theorem terminateCall_keeps_pending :
    (((newClientCodec DefaultOption).asyncGo "Foo.Sum" "args" "" none none).bind
        (fun p => p.2.terminateCall (GoError.new "EOF"))).map
      (fun c => (c.shutdown, c.pending, (c.calls 0).Error, c.pushes 0)) =
    some (true, [(1, 0)], some (GoError.new "EOF"), 1) ∧
    sharedPending.pending = [(2, 1), (1, 0)] ∧
    (sharedPending.calls 0).Done = ⟨0, 1⟩ ∧ (sharedPending.calls 1).Done = ⟨0, 1⟩ ∧
    sharedPending.sending = false ∧ sharedPending.mu = false ∧
    sharedPending.buffered 0 = 0 ∧
    sharedPending.terminateCall (GoError.new "EOF") = none := by
  refine ⟨by decide, rfl, rfl, rfl, rfl, rfl, rfl, rfl⟩

/-- C2, amended: on a client whose mutexes are free, whose pending table holds each call once
and where the `Done` channels of the pending calls have free slots for all of them,
`terminateCall err` returns, sets `shutdown`, sets the `Error` of every pending call to `err`
and sends each of them once on its `Done` channel; the pending table is left as it was, and so
are the calls that are not pending, the codec, the sequence counter and `closing`. -/
theorem terminateCall_sweep (c : Client) (err : GoError)
    (hs : c.sending = false) (hmu : c.mu = false) (hnd : (c.pending.map Prod.snd).Nodup)
    (hroom : c.roomFor (c.pending.map Prod.snd)) :
    ∃ c2, c.terminateCall err = some c2 ∧ c2.shutdown = true ∧ c2.pending = c.pending ∧
      (∀ k r, (k, r) ∈ c.pending →
        c2.calls r = { c.calls r with Error := some err } ∧ c2.pushes r = c.pushes r + 1) ∧
      (∀ r, r ∉ c.pending.map Prod.snd → c2.calls r = c.calls r ∧ c2.pushes r = c.pushes r) ∧
      c2.cc = c.cc ∧ c2.seq = c.seq ∧ c2.closing = c.closing ∧
      c2.sending = false ∧ c2.mu = false := by
  refine ⟨_, terminateCall_of_room c err hmu hs hroom, ?_⟩
  obtain ⟨h1, h2, h3, h4, h5, h6, h7, h8, h9, h10, h11, h12⟩ :=
    sweep_frame err c.pending { c with shutdown := true }
  refine ⟨h9, h7, ?_, ?_, h1, h6, h8, h3.trans hs, h5.trans hmu⟩
  · intro k r hkr
    have hmem : r ∈ c.pending.map Prod.snd := List.mem_map.mpr ⟨(k, r), hkr, rfl⟩
    constructor
    · rw [sweep_calls]
      simp [hmem]
    · rw [sweep_pushes]
      simp only [List.count_eq_one_of_mem hnd hmem]
      rfl
  · intro r hr
    constructor
    · rw [sweep_calls]
      simp only [hr, if_false]
    · rw [sweep_pushes]
      simp only [List.count_eq_zero_of_not_mem hr]
      rfl

/-- C2, amended, at a client with two pending calls, each with its own empty `Done` channel of
capacity 10. -/
theorem terminateCall_sweep_witness :
    twoPending.pending = [(2, 1), (1, 0)] ∧
    (twoPending.calls 0).Done = ⟨0, 10⟩ ∧ (twoPending.calls 1).Done = ⟨1, 10⟩ ∧
    ∃ c2, twoPending.terminateCall (GoError.new "EOF") = some c2 ∧ c2.shutdown = true ∧
      c2.pending = twoPending.pending ∧
      (∀ k r, (k, r) ∈ twoPending.pending →
        c2.calls r = { twoPending.calls r with Error := some (GoError.new "EOF") } ∧
        c2.pushes r = twoPending.pushes r + 1) ∧
      (∀ r, r ∉ twoPending.pending.map Prod.snd →
        c2.calls r = twoPending.calls r ∧ c2.pushes r = twoPending.pushes r) ∧
      c2.cc = twoPending.cc ∧ c2.seq = twoPending.seq ∧ c2.closing = twoPending.closing ∧
      c2.sending = false ∧ c2.mu = false :=
  ⟨by decide, by decide, by decide,
    terminateCall_sweep twoPending (GoError.new "EOF") (by decide) (by decide)
      (by decide) (by unfold Client.roomFor; decide)⟩

/-! ## The receive loop on a body that fails to decode -/

theorem pendingGet_mem {m : List (Nat × Nat)} {seq r : Nat} (h : pendingGet m seq = some r) :
    (seq, r) ∈ m := by
  induction m with
  | nil => simp [pendingGet] at h
  | cons e rest ih =>
    obtain ⟨k, r0⟩ := e
    simp only [pendingGet] at h
    by_cases hk : k = seq
    · simp only [hk, if_true, Option.some.injEq] at h
      simp [hk, h]
    · simp only [hk, if_false] at h
      exact List.mem_cons_of_mem _ (ih h)

theorem mem_pendingDelete {m : List (Nat × Nat)} {seq k r : Nat} :
    (k, r) ∈ pendingDelete m seq ↔ (k, r) ∈ m ∧ k ≠ seq := by
  simp [pendingDelete]

theorem pendingDelete_nodup {m : List (Nat × Nat)} (seq : Nat)
    (h : (m.map Prod.snd).Nodup) : ((pendingDelete m seq).map Prod.snd).Nodup :=
  h.sublist ((List.filter_sublist m).map Prod.snd)

theorem snd_unique {m : List (Nat × Nat)} (h : (m.map Prod.snd).Nodup) {a b r : Nat}
    (ha : (a, r) ∈ m) (hb : (b, r) ∈ m) : a = b := by
  have := List.inj_on_of_nodup_map h ha hb rfl
  exact congrArg Prod.fst this

theorem push_pushes (c : Client) (r : Nat) (err : GoError) (x : Nat) :
    ((c.setError r err).push r).pushes x = c.pushes x + (if x = r then 1 else 0) := by
  by_cases hx : x = r
  · subst hx
    simp [Client.pushes, Client.setError, Client.push]
  · by_cases hd : (c.calls x).Done.id = (c.calls r).Done.id
    · simp [Client.pushes, Client.setError, Client.push, hx, hd, Function.update_noteq,
        List.count_append]
    · simp [Client.pushes, Client.setError, Client.push, hx, hd, Function.update_noteq]

theorem roomFor_push_sub {c : Client} {r : Nat} {l l2 : List Nat} (err : GoError)
    (h : c.roomFor l) (hr : r ∈ l) (hsub : l2.Sublist l) (hnot : r ∉ l2) :
    ((c.setError r err).push r).roomFor l2 := by
  intro x hx
  have h1 := h x (hsub.subset hx)
  have hb := buffered_push (c.setError r err) r ((c.calls x).Done.id)
  have hD : ∀ y, (((c.setError r err).push r).calls y).Done = (c.calls y).Done :=
    fun y => setError_Done c r err y
  have hb2 : (c.setError r err).buffered (c.calls x).Done.id = c.buffered (c.calls x).Done.id :=
    rfl
  rw [setError_Done, hb2] at hb
  simp only [hD]
  by_cases hd : (c.calls r).Done.id = (c.calls x).Done.id
  · have hsp := List.cons_subperm_of_not_mem_of_mem hnot hr hsub.subperm
    have hc := List.Subperm.countP_le
      (fun y => decide ((c.calls y).Done.id = (c.calls x).Done.id)) hsp
    simp only [List.countP_cons, hd, decide_True, if_true] at hc
    simp only [hd, if_true] at hb
    omega
  · have hc := hsub.countP_le (p := fun y => decide ((c.calls y).Done.id = (c.calls x).Done.id))
    simp only [hd, if_false] at hb
    omega

theorem receiveIter_body_fail (c : Client) (f : Frame) (r : Nat) (e : String)
    (hmu : c.mu = false) (hget : pendingGet c.pending f.header.Seq = some r)
    (hE : f.header.Error = "") (hb : f.body = BodyRead.fail e)
    (hroom : c.buffered (c.calls r).Done.id < (c.calls r).Done.cap) :
    c.receiveIter f = some (some e,
      (Client.setError
        { c with cc := c.cc ++ [CodecOp.ReadHeader, CodecOp.ReadBody (some r)],
                 pending := pendingDelete c.pending f.header.Seq }
        r (GoError.new ("reading body" ++ e))).push r) := by
  have hrm := removeCall_eq { c with cc := c.cc ++ [CodecOp.ReadHeader] } f.header.Seq hmu
  have hd := done_of_room (Client.setError
        { c with cc := c.cc ++ [CodecOp.ReadHeader, CodecOp.ReadBody (some r)],
                 pending := pendingDelete c.pending f.header.Seq }
        r (GoError.new ("reading body" ++ e))) r (by rw [setError_Done]; exact hroom)
  simp only [Client.receiveIter, hrm, Option.bind_eq_bind, Option.some_bind, hget, hE, hb]
  simp only [List.append_assoc, List.singleton_append] at hd ⊢
  simp [hd]
/-- C4, as stated, fails: two calls are pending, the receive loop reads the header of the first
one and its body fails to decode. The loop ends there (the next frame, the response to the
second call, is never read), `shutdown` is set, and the second call has its `Error` set to the
body error and was sent on its `Done` channel. When the two calls share a `Done` channel of
capacity 1, the first call is completed and fills the channel, and the `terminateCall` that
follows does not return: its send for the second call blocks. -/
theorem body_failure_ends_receive_loop :
    (twoPending.receive
        [⟨⟨"Foo.Sum", 1, ""⟩, BodyRead.fail "bad body"⟩,
         ⟨⟨"Foo.Sum", 2, ""⟩, BodyRead.ok "reply 2"⟩] "EOF").map
      (fun c => (c.shutdown, (c.calls 0).Error, (c.calls 1).Error, (c.calls 1).Reply,
        c.pushes 0, c.pushes 1, c.pending, c.cc.drop 2)) =
    some (true, some (GoError.new "reading bodybad body"), some (GoError.new "bad body"), "",
      1, 1, [(2, 1)], [CodecOp.ReadHeader, CodecOp.ReadBody (some 0)]) ∧
    (sharedPending.receiveIter ⟨⟨"Foo.Sum", 1, ""⟩, BodyRead.fail "bad body"⟩).map
      (fun p => (p.1, p.2.chans 0, p.2.pending)) = some (some "bad body", [0], [(2, 1)]) ∧
    sharedPending.receive
        [⟨⟨"Foo.Sum", 1, ""⟩, BodyRead.fail "bad body"⟩,
         ⟨⟨"Foo.Sum", 2, ""⟩, BodyRead.ok "reply 2"⟩] "EOF" = none := by
  refine ⟨rfl, rfl, rfl⟩

/-- C4, amended: on a client whose mutexes are free, whose pending table holds each call once
and where the `Done` channels of the pending calls have free slots for all of them, when the
receive loop reads a header with an empty `Error` for the pending call `r` and decoding the
body into its `Reply` fails with `e`, the call `r` gets the error `"reading body" + e` and is
sent once on its `Done` channel; the failure ends the receive loop, whatever frames follow:
`terminateCall` runs with `e`, it sets `shutdown`, and every other pending call stays in the
pending table, gets the `Error` `e` and is sent once on its `Done` channel. -/
theorem receive_body_failure (c : Client) (f : Frame) (rest : List Frame) (eof : String)
    (r : Nat) (e : String)
    (hs : c.sending = false) (hmu : c.mu = false) (hnd : (c.pending.map Prod.snd).Nodup)
    (hroom : c.roomFor (c.pending.map Prod.snd))
    (hget : pendingGet c.pending f.header.Seq = some r)
    (hE : f.header.Error = "") (hb : f.body = BodyRead.fail e) :
    ∃ c2, c.receive (f :: rest) eof = some c2 ∧
      c2.calls r = { c.calls r with Error := some (GoError.new ("reading body" ++ e)) } ∧
      c2.pushes r = c.pushes r + 1 ∧
      c2.shutdown = true ∧
      c2.cc = c.cc ++ [CodecOp.ReadHeader, CodecOp.ReadBody (some r)] ∧
      (∀ k r2, (k, r2) ∈ c.pending → k ≠ f.header.Seq →
        (k, r2) ∈ c2.pending ∧
        c2.calls r2 = { c.calls r2 with Error := some (GoError.new e) } ∧
        c2.pushes r2 = c.pushes r2 + 1) := by
  have hmem : (f.header.Seq, r) ∈ c.pending := pendingGet_mem hget
  have hrmem : r ∈ c.pending.map Prod.snd := List.mem_map.mpr ⟨_, hmem, rfl⟩
  have hroomr : c.buffered (c.calls r).Done.id < (c.calls r).Done.cap := by
    have h1 := hroom r hrmem
    have h2 : 0 < (c.pending.map Prod.snd).countP
        (fun x => decide ((c.calls x).Done.id = (c.calls r).Done.id)) :=
      List.countP_pos_iff.mpr ⟨r, hrmem, by simp⟩
    omega
  have hit := receiveIter_body_fail c f r e hmu hget hE hb hroomr
  have hrnot0 : r ∉ (pendingDelete c.pending f.header.Seq).map Prod.snd := by
    intro hin
    obtain ⟨⟨k, r0⟩, hk, hr0⟩ := List.mem_map.mp hin
    simp only at hr0
    subst hr0
    have hk2 := mem_pendingDelete.mp hk
    exact hk2.2 (snd_unique hnd hk2.1 hmem)
  have hroom1 := roomFor_push_sub (GoError.new ("reading body" ++ e)) hroom hrmem
    ((List.filter_sublist c.pending).map Prod.snd) hrnot0
  generalize hc1 : (Client.setError
        { c with cc := c.cc ++ [CodecOp.ReadHeader, CodecOp.ReadBody (some r)],
                 pending := pendingDelete c.pending f.header.Seq }
        r (GoError.new ("reading body" ++ e))).push r = c1 at hit
  have h1p : c1.pending = pendingDelete c.pending f.header.Seq := by rw [← hc1]; rfl
  have h1s : c1.sending = false := by rw [← hc1]; exact hs
  have h1m : c1.mu = false := by rw [← hc1]; exact hmu
  have h1cc : c1.cc = c.cc ++ [CodecOp.ReadHeader, CodecOp.ReadBody (some r)] := by
    rw [← hc1]; rfl
  have h1room : c1.roomFor (c1.pending.map Prod.snd) := by
    rw [h1p, ← hc1]; exact hroom1
  have h1push : ∀ x, c1.pushes x = c.pushes x + (if x = r then 1 else 0) := by
    intro x
    rw [← hc1]
    exact push_pushes _ r _ x
  have h1calls : ∀ x, c1.calls x = if x = r then
      { c.calls r with Error := some (GoError.new ("reading body" ++ e)) } else c.calls x := by
    intro x
    rw [← hc1]
    by_cases hx : x = r
    · subst hx; simp [Client.setError, Client.push]
    · simp [Client.setError, Client.push, hx, Function.update_noteq]
  have hrnot : r ∉ c1.pending.map Prod.snd := by rw [h1p]; exact hrnot0
  have h1nd : (c1.pending.map Prod.snd).Nodup := by
    rw [h1p]; exact pendingDelete_nodup _ hnd
  obtain ⟨g1, g2, g3, g4, g5, g6, g7, g8, g9, g10, g11, g12⟩ :=
    sweep_frame (GoError.new e) c1.pending { c1 with shutdown := true }
  refine ⟨Client.sweep (GoError.new e) c1.pending { c1 with shutdown := true }, ?_, ?_,
    ?_, g9, g1.trans h1cc, ?_⟩
  · simp only [Client.receive, hit, Option.bind_eq_bind, Option.some_bind]
    exact terminateCall_of_room c1 (GoError.new e) h1m h1s h1room
  · rw [sweep_calls]
    simp only [hrnot, if_false]
    simpa using h1calls r
  · rw [sweep_pushes, List.count_eq_zero_of_not_mem hrnot]
    simpa [Client.pushes] using h1push r
  · intro k r2 hk hne
    have hk1 : (k, r2) ∈ c1.pending := by
      rw [h1p]; exact mem_pendingDelete.mpr ⟨hk, hne⟩
    have hr2 : r2 ∈ c1.pending.map Prod.snd := List.mem_map.mpr ⟨(k, r2), hk1, rfl⟩
    have hne2 : r2 ≠ r := fun h => hrnot (h ▸ hr2)
    refine ⟨by rw [g7]; exact hk1, ?_, ?_⟩
    · rw [sweep_calls]
      simp only [hr2, if_true]
      have := h1calls r2
      simp only [hne2, if_false] at this
      simp [this]
    · rw [sweep_pushes, List.count_eq_one_of_mem h1nd hr2]
      have := h1push r2
      simp only [hne2, if_false] at this
      simpa [Client.pushes] using this

/-- C4, amended, at a client with two pending calls, each with its own empty `Done` channel of
capacity 10, when the body of the response to the first one fails to decode. -/
theorem receive_body_failure_witness :
    (twoPending.calls 0).Done = ⟨0, 10⟩ ∧ (twoPending.calls 1).Done = ⟨1, 10⟩ ∧
    ∃ c2, twoPending.receive
        (⟨⟨"Foo.Sum", 1, ""⟩, BodyRead.fail "bad body"⟩ ::
          [⟨⟨"Foo.Sum", 2, ""⟩, BodyRead.ok "reply 2"⟩]) "EOF" = some c2 ∧
      c2.calls 0 =
        { twoPending.calls 0 with Error := some (GoError.new ("reading body" ++ "bad body")) } ∧
      c2.pushes 0 = twoPending.pushes 0 + 1 ∧
      c2.shutdown = true ∧
      c2.cc = twoPending.cc ++ [CodecOp.ReadHeader, CodecOp.ReadBody (some 0)] ∧
      (∀ k r2, (k, r2) ∈ twoPending.pending → k ≠ 1 →
        (k, r2) ∈ c2.pending ∧
        c2.calls r2 = { twoPending.calls r2 with Error := some (GoError.new "bad body") } ∧
        c2.pushes r2 = twoPending.pushes r2 + 1) :=
  ⟨by decide, by decide,
    receive_body_failure twoPending ⟨⟨"Foo.Sum", 1, ""⟩, BodyRead.fail "bad body"⟩
      [⟨⟨"Foo.Sum", 2, ""⟩, BodyRead.ok "reply 2"⟩] "EOF" 0 "bad body"
      (by decide) (by decide) (by decide) (by unfold Client.roomFor; decide) (by decide)
      (by decide) (by decide)⟩

/-! ## Sequence numbers -/

theorem pendingDelete_keys_nodup {m : List (Nat × Nat)} (seq : Nat)
    (h : (m.map Prod.fst).Nodup) : ((pendingDelete m seq).map Prod.fst).Nodup :=
  h.sublist ((List.filter_sublist m).map Prod.fst)

theorem pendingSet_keys_nodup {m : List (Nat × Nat)} (seq r : Nat)
    (h : (m.map Prod.fst).Nodup) : ((pendingSet m seq r).map Prod.fst).Nodup := by
  simp only [pendingSet, List.map_cons, List.nodup_cons]
  refine ⟨?_, pendingDelete_keys_nodup seq h⟩
  intro hin
  obtain ⟨⟨k, r0⟩, hk, hk2⟩ := List.mem_map.mp hin
  simp only at hk2
  subst hk2
  exact (mem_pendingDelete.mp hk).2 rfl

theorem pendingGet_eq_none {m : List (Nat × Nat)} {seq : Nat}
    (h : ∀ k r, (k, r) ∈ m → k ≠ seq) : pendingGet m seq = none := by
  induction m with
  | nil => rfl
  | cons e rest ih =>
    obtain ⟨k, r0⟩ := e
    have hk : k ≠ seq := h k r0 (List.mem_cons_self _ _)
    simp only [pendingGet, hk, if_false]
    exact ih (fun k2 r2 h2 => h k2 r2 (List.mem_cons_of_mem _ h2))

theorem SeqInv_newCall {n : Nat} {c : Client} (call : Call) (h : SeqInv n c) :
    SeqInv n (c.newCall call).2 := by
  refine ⟨h.mu_free, h.sending_free, h.seq_eq, h.keys_range, ?_, h.keys_nodup⟩
  intro k r hkr
  have := h.seq_key k r hkr
  have hne : r ≠ c.nextCall := Nat.ne_of_lt this.2
  refine ⟨?_, Nat.lt_succ_of_lt this.2⟩
  simp only [Client.newCall, Function.update_noteq hne]
  exact this.1

theorem registerCall_cases (c : Client) (r : Nat) (hmu : c.mu = false) :
    (c.closing = false ∧ c.shutdown = false ∧
      c.registerCall r = some ((c.seq, none),
        { c with calls := Function.update c.calls r { c.calls r with Seq := c.seq },
                 pending := pendingSet c.pending c.seq r,
                 seq := (c.seq + 1) % uint64Size })) ∨
    ((c.closing = true ∨ c.shutdown = true) ∧
      c.registerCall r = some ((0, some ErrShutdown), c)) := by
  rcases Bool.eq_false_or_eq_true c.closing with hc | hc
  · exact Or.inr ⟨Or.inl hc, registerCall_shut c r hmu (Or.inl hc)⟩
  · rcases Bool.eq_false_or_eq_true c.shutdown with hs | hs
    · exact Or.inr ⟨Or.inr hs, registerCall_shut c r hmu (Or.inr hs)⟩
    · exact Or.inl ⟨hc, hs, registerCall_ok c r hmu hc hs⟩

theorem SeqInv_register {n : Nat} {c1 c2 : Client} {r seq : Nat} (h : SeqInv n c1)
    (hfresh : ∀ k r2, (k, r2) ∈ c1.pending → r2 ≠ r) (hr : r < c1.nextCall)
    (heq : c1.registerCall r = some ((seq, none), c2)) : SeqInv (n + 1) c2 := by
  rcases registerCall_cases c1 r h.mu_free with ⟨_, _, hok⟩ | ⟨_, hshut⟩
  · rw [hok] at heq
    simp only [Option.some.injEq, Prod.mk.injEq, and_true] at heq
    obtain ⟨_, rfl⟩ := heq
    have hseq := h.seq_eq
    refine ⟨h.mu_free, h.sending_free, ?_, ?_, ?_, pendingSet_keys_nodup _ _ h.keys_nodup⟩
    · simp only [uint64Size] at hseq ⊢
      omega
    · intro hn k r2 hkr
      simp only [pendingSet, List.mem_cons, Prod.mk.injEq] at hkr
      rcases hkr with ⟨hk, _⟩ | hkr
      · simp only [uint64Size] at hseq hn
        omega
      · have := h.keys_range (by omega) k r2 (mem_pendingDelete.mp hkr).1
        omega
    · intro k r2 hkr
      simp only [pendingSet, List.mem_cons, Prod.mk.injEq] at hkr
      rcases hkr with ⟨hk, hr2⟩ | hkr
      · subst hk hr2
        simp [hr]
      · have hm := (mem_pendingDelete.mp hkr).1
        have hne := hfresh k r2 hm
        simp only [Function.update_noteq hne]
        exact h.seq_key k r2 hm
  · rw [hshut] at heq
    simp at heq

theorem SeqInv_refuse {n : Nat} {c1 c2 : Client} {r seq : Nat} {err : GoError}
    (h : SeqInv n c1) (heq : c1.registerCall r = some ((seq, some err), c2)) : c2 = c1 := by
  rcases registerCall_cases c1 r h.mu_free with ⟨_, _, hok⟩ | ⟨_, hshut⟩
  · rw [hok] at heq
    simp at heq
  · rw [hshut] at heq
    simp only [Option.some.injEq, Prod.mk.injEq] at heq
    exact heq.2.symm

theorem newCall_fresh {n : Nat} {c : Client} (call : Call) (h : SeqInv n c) :
    (∀ k r2, (k, r2) ∈ (c.newCall call).2.pending → r2 ≠ (c.newCall call).1) ∧
    (c.newCall call).1 < (c.newCall call).2.nextCall :=
  ⟨fun k r2 hkr => Nat.ne_of_lt (h.seq_key k r2 hkr).2, Nat.lt_succ_self _⟩

theorem SeqInv_of_reach {n : Nat} {c : Client} (h : Reach n c) : SeqInv n c := by
  induction h with
  | init opt =>
    exact ⟨rfl, rfl, by simp [newClientCodec, uint64Size], by intro _ k r hkr; simp [newClientCodec] at hkr,
      by intro k r hkr; simp [newClientCodec] at hkr, by simp [newClientCodec]⟩
  | @registered n c call seq c2 _ heq ih =>
    exact SeqInv_register (SeqInv_newCall call ih) (newCall_fresh call ih).1
      (newCall_fresh call ih).2 heq
  | @refused n c call seq err c2 _ heq ih =>
    rw [SeqInv_refuse (SeqInv_newCall call ih) heq]
    exact SeqInv_newCall call ih
  | @removed n c seq call c2 _ heq ih =>
    rw [removeCall_eq c seq ih.mu_free] at heq
    simp only [Option.some.injEq, Prod.mk.injEq] at heq
    obtain ⟨_, rfl⟩ := heq
    refine ⟨ih.mu_free, ih.sending_free, ih.seq_eq, ?_, ?_, pendingDelete_keys_nodup _ ih.keys_nodup⟩
    · intro hn k r hkr
      exact ih.keys_range hn k r (mem_pendingDelete.mp hkr).1
    · intro k r hkr
      exact ih.seq_key k r (mem_pendingDelete.mp hkr).1
  | @terminated n c err c2 _ heq ih =>
    have hc2 := terminateCall_some c c2 err ih.mu_free ih.sending_free heq
    subst hc2
    obtain ⟨g1, g2, g3, g4, g5, g6, g7, g8, g9, g10, g11, g12⟩ :=
      sweep_frame err c.pending { c with shutdown := true }
    refine ⟨g5.trans ih.mu_free, g3.trans ih.sending_free, g6.trans ih.seq_eq, ?_, ?_, ?_⟩
    · intro hn k r hkr
      rw [g7] at hkr
      exact ih.keys_range hn k r hkr
    · intro k r hkr
      rw [g7] at hkr
      rw [g10, sweep_calls]
      have := ih.seq_key k r hkr
      split <;> exact this
    · rw [g7]; exact ih.keys_nodup

theorem pendingDelete_absent {m : List (Nat × Nat)} {seq : Nat}
    (h : ∀ k r, (k, r) ∈ m → k ≠ seq) : pendingDelete m seq = m := by
  simp only [pendingDelete, List.filter_eq_self]
  intro e he
  simpa using h e.1 e.2 he

theorem SeqInv_seq_absent {n : Nat} {c : Client} (h : SeqInv n c) (hn : n < uint64Size) :
    ∀ k r, (k, r) ∈ c.pending → k ≠ c.seq := by
  intro k r hkr
  have hr := h.keys_range hn k r hkr
  have hseq := h.seq_eq
  simp only [uint64Size] at hseq hn
  omega

theorem SeqInv_calls_nodup {n : Nat} {c : Client} (h : SeqInv n c) :
    (c.pending.map Prod.snd).Nodup := by
  apply List.Nodup.map_on _ (List.Nodup.of_map Prod.fst h.keys_nodup)
  intro x hx y hy hxy
  have h1 := (h.seq_key x.1 x.2 hx).1
  have h2 := (h.seq_key y.1 y.2 hy).1
  rw [hxy] at h1
  exact Prod.ext (h1.symm.trans h2) hxy

theorem reach_cycle {n : Nat} {c : Client} (h : Reach n c) (hc : c.closing = false)
    (hs : c.shutdown = false) (hp : c.pending = [(1, 0)]) (hseq : c.seq ≠ 1) :
    ∃ c3, Reach (n + 1) c3 ∧ c3.seq = (c.seq + 1) % uint64Size ∧ c3.pending = [(1, 0)] ∧
      c3.closing = false ∧ c3.shutdown = false ∧ c3.nextCall = c.nextCall + 1 := by
  have hinv := SeqInv_of_reach h
  have heq := registerCall_ok (c.newCall firstCall).2 (c.newCall firstCall).1 hinv.mu_free hc hs
  have h2 := Reach.registered firstCall _ _ h heq
  have hrm := removeCall_eq _ c.seq (SeqInv_of_reach h2).mu_free
  have h3 := Reach.removed _ _ _ h2 hrm
  refine ⟨_, h3, rfl, ?_, hc, hs, rfl⟩
  have hne : ¬ (1 = c.seq) := fun h => hseq h.symm
  simp [Client.newCall, pendingSet, pendingDelete, hp, hne]

theorem reach_wrapped (n : Nat) (hn : n < uint64Size) :
    ∃ c, Reach (n + 1) c ∧ c.seq = (n + 2) % uint64Size ∧ c.pending = [(1, 0)] ∧
      c.closing = false ∧ c.shutdown = false ∧ c.nextCall = n + 1 := by
  induction n with
  | zero =>
    have heq := registerCall_ok ((newClientCodec DefaultOption).newCall firstCall).2
      ((newClientCodec DefaultOption).newCall firstCall).1 rfl rfl rfl
    exact ⟨_, Reach.registered firstCall _ _ (Reach.init DefaultOption) heq, rfl, rfl, rfl, rfl,
      rfl⟩
  | succ n ih =>
    obtain ⟨c, hr, hseq, hp, hc, hs, hnc⟩ := ih (Nat.lt_of_succ_lt hn)
    have hne : c.seq ≠ 1 := by
      simp only [uint64Size] at hseq hn
      omega
    obtain ⟨c3, h3, hseq3, hp3, hc3, hs3, hnc3⟩ := reach_cycle hr hc hs hp hne
    refine ⟨c3, h3, ?_, hp3, hc3, hs3, by omega⟩
    rw [hseq3, hseq]
    simp only [uint64Size]
    omega

/-- C10, as stated, fails: after `2 ^ 64` successful registrations the counter is back at 1
while the call registered first is still pending under the key 1; the next `registerCall`
succeeds with sequence number 1 and replaces that call in the pending table. -/
theorem seq_reused_after_wraparound :
    ∃ (c c2 : Client), Reach uint64Size c ∧
      pendingGet c.pending 1 = some 0 ∧
      (c.newCall firstCall).2.registerCall (c.newCall firstCall).1 = some ((1, none), c2) ∧
      (c.newCall firstCall).1 ≠ 0 ∧
      c2.pending = [(1, (c.newCall firstCall).1)] := by
  obtain ⟨c, hr, hseq, hp, hc, hs, hnc⟩ := reach_wrapped (uint64Size - 1) (by decide)
  have hseq1 : c.seq = 1 := by rw [hseq]; decide
  have heq := registerCall_ok (c.newCall firstCall).2 (c.newCall firstCall).1
    (SeqInv_of_reach hr).mu_free hc hs
  have hseq2 : (c.newCall firstCall).2.seq = 1 := hseq1
  rw [hseq2] at heq
  refine ⟨c, _, hr, by rw [hp]; rfl, heq, ?_, ?_⟩
  · simp only [Client.newCall, hnc]
    decide
  · simp [Client.newCall, hp, pendingSet, pendingDelete]

/-- C10, amended: in every state reached from `newClientCodec` by `registerCall` (on a newly
created call), `removeCall` and `terminateCall` steps, of which `n` were successful
registrations, the counter is `(n + 1) mod 2 ^ 64`, every pending call has its `Seq` equal to
its key, and no key and no call occurs twice in the pending table. If moreover `n < 2 ^ 64`,
the counter is not a key of the pending table, so a successful `registerCall` assigns the
counter as a sequence number that no pending call has, adds the call without replacing one,
and increments the counter by one modulo `2 ^ 64`. -/
theorem registerCall_seq_unused (n : Nat) (c : Client) (h : Reach n c) :
    c.seq = (n + 1) % uint64Size ∧
    (∀ k r, (k, r) ∈ c.pending → (c.calls r).Seq = k) ∧
    (c.pending.map Prod.fst).Nodup ∧
    (c.pending.map Prod.snd).Nodup ∧
    (n < uint64Size →
      pendingGet c.pending c.seq = none ∧
      ∀ (call : Call) (seq : Nat) (c2 : Client),
        (c.newCall call).2.registerCall (c.newCall call).1 = some ((seq, none), c2) →
        seq = c.seq ∧ pendingGet c.pending seq = none ∧
        c2.pending = (seq, (c.newCall call).1) :: c.pending ∧
        c2.seq = (c.seq + 1) % uint64Size) := by
  have hinv := SeqInv_of_reach h
  refine ⟨hinv.seq_eq, fun k r hkr => (hinv.seq_key k r hkr).1, hinv.keys_nodup,
    SeqInv_calls_nodup hinv, ?_⟩
  intro hn
  have habs := SeqInv_seq_absent hinv hn
  refine ⟨pendingGet_eq_none habs, ?_⟩
  intro call seq c2 heq
  rcases registerCall_cases (c.newCall call).2 (c.newCall call).1 hinv.mu_free with
    ⟨_, _, hok⟩ | ⟨_, hshut⟩
  · rw [hok] at heq
    simp only [Option.some.injEq, Prod.mk.injEq, and_true] at heq
    obtain ⟨hseq, rfl⟩ := heq
    have hseq2 : seq = c.seq := hseq.symm
    subst hseq2
    refine ⟨rfl, pendingGet_eq_none habs, ?_, rfl⟩
    show pendingSet c.pending c.seq _ = _
    rw [pendingSet, pendingDelete_absent habs]
  · rw [hshut] at heq
    simp at heq

/-- C10, amended, at the client with one registered call: the counter is 2, the call is
pending under the key 1, and the next registration gets the sequence number 2. -/
theorem registerCall_seq_unused_witness :
    Reach 1 oneRegistered ∧ oneRegistered.pending = [(1, 0)] ∧
    (oneRegistered.seq = (1 + 1) % uint64Size ∧
    (∀ k r, (k, r) ∈ oneRegistered.pending → (oneRegistered.calls r).Seq = k) ∧
    (oneRegistered.pending.map Prod.fst).Nodup ∧
    (oneRegistered.pending.map Prod.snd).Nodup ∧
    (1 < uint64Size →
      pendingGet oneRegistered.pending oneRegistered.seq = none ∧
      ∀ (call : Call) (seq : Nat) (c2 : Client),
        (oneRegistered.newCall call).2.registerCall (oneRegistered.newCall call).1 =
          some ((seq, none), c2) →
        seq = oneRegistered.seq ∧ pendingGet oneRegistered.pending seq = none ∧
        c2.pending = (seq, (oneRegistered.newCall call).1) :: oneRegistered.pending ∧
        c2.seq = (oneRegistered.seq + 1) % uint64Size)) :=
  ⟨Reach.registered firstCall 1 oneRegistered (Reach.init DefaultOption) rfl, rfl,
    registerCall_seq_unused 1 oneRegistered
      (Reach.registered firstCall 1 oneRegistered (Reach.init DefaultOption) rfl)⟩

end geerpc
